import Mathlib

/-!
# Verification of the shell322 command interpreter (src/unnamed/part_000)

A shallow embedding of the C source of the small interactive shell:
the tokenizer (`parse_input`), the process launcher (`execute_command`),
the pipe executor (`handle_pipe`), the conditional executor (`handle_and`),
the dispatcher part of `main`, and the history ring buffer
(`add_to_history` / `show_history`).

Process-level effects (fork / execvp / waitpid / close / printf) are
modelled as event traces: each function is translated into a Lean
function from its inputs, plus the environment's choices (the results of
the fork calls and the status collected by waitpid), to the ordered list
of operations the modelled process performs.
-/

/-- MAX_ARGS from part_000 line 10. -/
abbrev MAX_ARGS : Nat := 10

/-- HISTORY_COUNT from part_000 line 11. -/
abbrev HISTORY_COUNT : Nat := 10

/-- The delimiter set `" \t\n"` passed to strtok in `parse_input`
(part_000 line 131). -/
def isDelim (c : Char) : Bool := c = ' ' || c = '\t' || c = '\n'

/-- The token stream strtok produces on a character list: maximal runs of
non-delimiter characters, with runs of delimiters skipped.  `cur` is the
(reversed) partial token being accumulated. -/
def tokAux (cur : List Char) : List Char → List String
  | [] => if cur = [] then [] else [String.mk cur.reverse]
  | c :: cs =>
    if isDelim c then
      if cur = [] then tokAux [] cs
      else String.mk cur.reverse :: tokAux [] cs
    else tokAux (c :: cur) cs

/-- All tokens strtok would produce from a buffer (unbounded). -/
def strtokAll (cs : List Char) : List String := tokAux [] cs

/-- The loop of `parse_input` (part_000 lines 130-136): consume the strtok
token stream while `i < MAX_ARGS - 1`, dropping the excess. -/
def parseGo (i : Nat) : List String → List String
  | [] => []
  | t :: ts => if i < MAX_ARGS - 1 then t :: parseGo (i + 1) ts else []

/-- `parse_input` (part_000 lines 123-140): tokenize a line buffer into at
most `MAX_ARGS - 1` whitespace-separated tokens. -/
def parse_input (line : String) : List String := parseGo 0 (strtokAll line.data)

/-- The `args` array as written by `parse_input`: the token pointers
followed by the NULL sentinel stored at index `i` (part_000 line 138).
`none` models the NULL pointer. -/
def argsArrayOf (line : String) : List (Option String) :=
  (parse_input line).map some ++ [none]

/-- Splitting a character list at every delimiter occurrence, keeping the
(possibly empty) pieces between consecutive delimiters.  This is the
declarative splitter the tokenizer is compared against: its nonempty
pieces are exactly the maximal runs of non-delimiter characters. -/
def splitCh : List Char → List (List Char)
  | [] => [[]]
  | c :: cs => if isDelim c then [] :: splitCh cs else (splitCh cs).modifyHead (fun w => c :: w)

/-- A collected termination status, as inspected through WIFEXITED /
WEXITSTATUS / signal macros: normal termination with a code, or
termination by a signal. -/
inductive ExitStatus where
  | exited (code : Nat)
  | signaled (sig : Nat)
deriving DecidableEq

/-- An operation performed by the shell's own (parent) process. -/
inductive PEv where
  /-- `perror("fork failed")` in `execute_command` (part_000 line 104). -/
  | reportForkFail
  /-- A successful fork whose child will exec `prog` (args[0]; `none`
  models the NULL pointer when the argument list is empty) with argument
  vector `args`; `bg` records whether the launch is a background one. -/
  | spawn (pid : Nat) (prog : Option String) (args : List String) (bg : Bool)
  /-- `printf("[BG] Process ID: %d\n", pid)` (part_000 line 118). -/
  | printBGLine (pid : Nat)
  /-- `waitpid(pid, _, 0)` with a positive pid. -/
  | waitChild (pid : Nat)
  /-- `waitpid(-1, _, 0)`: waiting for any child (what a waitpid on a
  failed fork's return value degenerates to). -/
  | waitAny
  /-- `close(pipefd[0])` in the parent (part_000 line 183). -/
  | closeReadEnd
  /-- `close(pipefd[1])` in the parent (part_000 line 184). -/
  | closeWriteEnd
deriving DecidableEq

/-- The wait operation the parent performs for a fork result: a real pid
waits on that child, a failed fork (pid -1) waits on any child. -/
def waitEv : Option Nat → PEv
  | some p => PEv.waitChild p
  | none => PEv.waitAny

/-- `execute_command` (part_000 lines 93-121), parent side.  `forkRes` is
the environment's answer to `fork()`: `some pid` on success, `none` on
failure.  On failure the error is reported and nothing else happens; on
success the child execs `args[0]`, and the parent either waits (foreground)
or prints the `[BG]` line without waiting (background). -/
def execute_command (args : List String) (background : Bool) (forkRes : Option Nat) : List PEv :=
  match forkRes with
  | none => [PEv.reportForkFail]
  | some pid =>
    PEv.spawn pid args.head? args background ::
      (if background then [PEv.printBGLine pid] else [PEv.waitChild pid])

/-- `handle_pipe` (part_000 lines 142-188), parent side: fork the left
child, fork the right child, close both pipe descriptors, wait on both
fork results.  The source checks neither fork result: a failed fork
produces no child (and no report), and the corresponding waitpid receives
-1.  The child branches are modelled by `pipeLeftChild` / `pipeRightChild`. -/
def handle_pipe (left right : String) (fork1 fork2 : Option Nat) : List PEv :=
  (match fork1 with
   | some p => [PEv.spawn p (parse_input left).head? (parse_input left) false]
   | none => []) ++
  (match fork2 with
   | some p => [PEv.spawn p (parse_input right).head? (parse_input right) false]
   | none => []) ++
  [PEv.closeReadEnd, PEv.closeWriteEnd, waitEv fork1, waitEv fork2]

/-- An operation performed by a pipe child process. -/
inductive CEv where
  /-- `dup2(pipefd[1], STDOUT_FILENO)` (left child, part_000 line 157). -/
  | dupStdoutToPipe
  /-- `dup2(pipefd[0], STDIN_FILENO)` (right child, part_000 line 171). -/
  | dupStdinToPipe
  /-- closing `pipefd[0]` inside the child. -/
  | closeRead
  /-- closing `pipefd[1]` inside the child. -/
  | closeWrite
  /-- the `execvp(args[0], args)` call; `none` models the NULL pointer
  passed as the program name when the command tokenizes to zero tokens. -/
  | execvpCall (prog : Option String) (args : List String)
deriving DecidableEq

/-- The left pipe child (part_000 lines 155-166): redirect stdout into the
pipe, close both pipe descriptors, tokenize the left string and call
execvp on its first token - unconditionally, with no emptiness guard. -/
def pipeLeftChild (left : String) : List CEv :=
  [CEv.dupStdoutToPipe, CEv.closeRead, CEv.closeWrite,
   CEv.execvpCall (parse_input left).head? (parse_input left)]

/-- The right pipe child (part_000 lines 168-180): redirect stdin from the
pipe, close both pipe descriptors, tokenize the right string and call
execvp on its first token - unconditionally, with no emptiness guard. -/
def pipeRightChild (right : String) : List CEv :=
  [CEv.dupStdinToPipe, CEv.closeWrite, CEv.closeRead,
   CEv.execvpCall (parse_input right).head? (parse_input right)]

/-- `handle_and` (part_000 lines 190-216), parent side.  `forkL` is the
result of the fork for the left command; `st` is the status value examined
after `waitpid` (the left child's collected status when the fork
succeeded; whatever the failed waitpid left behind otherwise); `forkR` is
the fork result inside `execute_command` for the right command.  The
right command is parsed and launched in foreground mode exactly when the
examined status is a normal termination with code 0. -/
def handle_and (left right : String) (forkL : Option Nat) (st : ExitStatus)
    (forkR : Option Nat) : List PEv :=
  (match forkL with
   | some p => [PEv.spawn p (parse_input left).head? (parse_input left) false]
   | none => []) ++
  [waitEv forkL] ++
  (if st = ExitStatus.exited 0 then execute_command (parse_input right) false forkR else [])

/-- The classification `main` (part_000 lines 230-269) gives one input
line: which executor is invoked, with which pieces of the line. -/
inductive SAction where
  | runAnd (left right : String)
  | runPipe (left right : String)
  | builtinCd (args : List String)
  | builtinPwd
  | exitLoop
  | builtinHistory
  | launch (args : List String) (background : Bool)
  | skip
deriving DecidableEq

/-- `strstr(line, "&&")` (part_000 line 231): index of the first
occurrence of two consecutive ampersand characters. -/
def strstr2 : List Char → Option Nat
  | [] => none
  | a :: as =>
    if a = '&' ∧ as.head? = some '&' then some 0
    else (strstr2 as).map (· + 1)

/-- `strchr(line, c)` (part_000 lines 239, 248): index of the first
occurrence of a character. -/
def strchrIdx (c : Char) : List Char → Option Nat
  | [] => none
  | a :: as => if a = c then some 0 else (strchrIdx c as).map (· + 1)

/-- The tail of `main`'s dispatch (part_000 lines 253-269): tokenize the
(possibly truncated) line, skip it if no tokens were produced, route a
built-in first token to the built-in, and otherwise launch, honouring the
background flag. -/
def route (args : List String) (background : Bool) : SAction :=
  match args with
  | [] => SAction.skip
  | a0 :: _ =>
    if a0 = "cd" then SAction.builtinCd args
    else if a0 = "pwd" then SAction.builtinPwd
    else if a0 = "exit" then SAction.exitLoop
    else if a0 = "history" then SAction.builtinHistory
    else SAction.launch args background

/-- The dispatcher (part_000 lines 230-269): first a `&&` split, else a
`|` split, else the background marker check - `strchr(line, ampersand)`
sets the flag and `line[strcspn(line, amp)] = 0` truncates the line at its
first ampersand - and finally tokenization and routing. -/
def dispatch (line : String) : SAction :=
  let cs := line.data
  match strstr2 cs with
  | some i => SAction.runAnd (String.mk (cs.take i)) (String.mk (cs.drop (i + 2)))
  | none =>
    match strchrIdx '|' cs with
    | some i => SAction.runPipe (String.mk (cs.take i)) (String.mk (cs.drop (i + 1)))
    | none =>
      let bg := (strchrIdx '&' cs).isSome
      let cs2 := if bg then cs.takeWhile (fun c => c ≠ '&') else cs
      route (parse_input (String.mk cs2)) bg

/-- Whether an action spawns a child process (routes to one of the
process-creating executors). -/
def actionSpawns : SAction → Bool
  | SAction.runAnd _ _ => true
  | SAction.runPipe _ _ => true
  | SAction.launch _ _ => true
  | _ => false

/-- The stdout text an operation of the parent process prints. -/
def pevOutput : PEv → List String
  | PEv.printBGLine p => ["[BG] Process ID: " ++ toString p]
  | _ => []

/-- Whether a parent operation is a spawn. -/
def isSpawn : PEv → Bool
  | PEv.spawn _ _ _ _ => true
  | _ => false

/-- Whether a parent operation closes a pipe descriptor. -/
def isCloseFd : PEv → Bool
  | PEv.closeReadEnd => true
  | PEv.closeWriteEnd => true
  | _ => false

/-- Whether a parent operation is a wait. -/
def isWait : PEv → Bool
  | PEv.waitChild _ => true
  | PEv.waitAny => true
  | _ => false

/-- Two consecutive ampersand characters occur at index `i`. -/
def matchAnd (cs : List Char) (i : Nat) : Prop :=
  (cs.drop i).take 2 = ['&', '&']

instance (cs : List Char) (i : Nat) : Decidable (matchAnd cs i) := by
  unfold matchAnd; infer_instance

/-- No `&&` occurrence anywhere in the list (indices beyond the length
cannot carry one). -/
def noAnd (cs : List Char) : Prop := ∀ i < cs.length, ¬ matchAnd cs i

instance (cs : List Char) : Decidable (noAnd cs) := by
  unfold noAnd; infer_instance

/-- `i` is the first index at which `&&` occurs. -/
def firstAndAt (cs : List Char) (i : Nat) : Prop :=
  matchAnd cs i ∧ ∀ j < i, ¬ matchAnd cs j

instance (cs : List Char) (i : Nat) : Decidable (firstAndAt cs i) := by
  unfold firstAndAt; infer_instance

/-- `i` is the first index at which character `c` occurs. -/
def firstChrAt (cs : List Char) (c : Char) (i : Nat) : Prop :=
  cs[i]? = some c ∧ ∀ j < i, cs[j]? ≠ some c

instance (cs : List Char) (c : Char) (i : Nat) : Decidable (firstChrAt cs c i) := by
  unfold firstChrAt; infer_instance

/-- The state of the history ring buffer: the HISTORY_COUNT slots
(part_000 line 14; `none` models an empty slot) and `history_index`
(line 17). -/
structure HistState where
  slots : List (Option String)
  idx : Nat

/-- The empty initial history (C zero-initialized globals). -/
def initHist : HistState := ⟨List.replicate HISTORY_COUNT none, 0⟩

/-- `add_to_history` (part_000 lines 20-33): store the command in the
current slot and advance the index circularly. -/
def add_to_history (cmd : String) (st : HistState) : HistState :=
  ⟨st.slots.set st.idx (some cmd), (st.idx + 1) % HISTORY_COUNT⟩

/-- Recording a whole sequence of commands in order. -/
def foldAdd (st : HistState) (cmds : List String) : HistState :=
  cmds.foldl (fun s c => add_to_history c s) st

/-- The history state after entering `cmds` into an initially empty
history. -/
def histAfter (cmds : List String) : HistState := foldAdd initHist cmds

/-- The do-while loop of `show_history` (part_000 lines 44-52): starting
at `history_index`, print each occupied slot as a numbered entry and
advance circularly, while the index has not returned to the start and
fewer than HISTORY_COUNT entries were printed.  The fuel argument only
serves termination; `HISTORY_COUNT` steps always bring the index back to
its start. -/
def showGo (slots : List (Option String)) (start : Nat) : Nat → Nat → Nat → List (Nat × String)
  | 0, _, _ => []
  | fuel + 1, idx, count =>
    let printed : List (Nat × String) × Nat :=
      match slots.getD idx none with
      | some c => ([(count + 1, c)], count + 1)
      | none => ([], count)
    let idx2 := (idx + 1) % HISTORY_COUNT
    printed.1 ++
      (if idx2 ≠ start ∧ printed.2 < HISTORY_COUNT then showGo slots start fuel idx2 printed.2
       else [])

/-- `show_history` (part_000 lines 36-53): the numbered entries printed,
in print order. -/
def show_history (st : HistState) : List (Nat × String) :=
  showGo st.slots st.idx HISTORY_COUNT st.idx 0

/-- C1: for a `&&` line, the right-hand command is tokenized and launched
in foreground mode if and only if the left-hand command's collected exit
status is a normal termination with code zero; a non-zero code or a
signal means the right command is never launched. -/
theorem C1_and_gate (left right : String) (p pr : Nat) (st : ExitStatus)
    (hpp : p ≠ pr) :
    PEv.spawn pr (parse_input right).head? (parse_input right) false
        ∈ handle_and left right (some p) st (some pr)
      ↔ st = ExitStatus.exited 0 := by
  constructor
  · intro hmem
    by_contra hne
    simp [handle_and, execute_command, waitEv, hne, (Ne.symm hpp)] at hmem
  · intro h
    subst h
    simp [handle_and, execute_command, waitEv]

/-- Witness for C1 at concrete inputs: with the left child's status
`exited 0`, the right command's tokens are launched in foreground mode. -/
theorem C1_and_gate_witness :
    PEv.spawn 2 (some "pwd") ["pwd"] false
      ∈ handle_and "ls " " pwd" (some 1) (ExitStatus.exited 0) (some 2) :=
  (C1_and_gate "ls " " pwd" 1 2 (ExitStatus.exited 0) (by decide)).mpr rfl

/-- C2 (code bug): when a pipe command string tokenizes to zero tokens,
the corresponding child does not fail cleanly - it reaches the execvp
call with a NULL program name (modelled as `none`), with no guard. -/
theorem C2_null_exec :
    CEv.execvpCall none [] ∈ pipeLeftChild ""
      ∧ CEv.execvpCall none [] ∈ pipeRightChild " " := by
  decide

/-- C4: in the pipe executor (with both forks succeeding), every spawn
precedes every descriptor close, every close precedes every wait, and the
orchestrator waits on both children. -/
theorem C4_pipe_order (left right : String) (p1 p2 : Nat) :
    (∀ (i j : Nat) (ei ej : PEv),
        (handle_pipe left right (some p1) (some p2)).get? i = some ei →
        (handle_pipe left right (some p1) (some p2)).get? j = some ej →
        isSpawn ei = true → isCloseFd ej = true → i < j)
    ∧ (∀ (i j : Nat) (ei ej : PEv),
        (handle_pipe left right (some p1) (some p2)).get? i = some ei →
        (handle_pipe left right (some p1) (some p2)).get? j = some ej →
        isCloseFd ei = true → isWait ej = true → i < j)
    ∧ PEv.waitChild p1 ∈ handle_pipe left right (some p1) (some p2)
    ∧ PEv.waitChild p2 ∈ handle_pipe left right (some p1) (some p2) := by
  have ht : handle_pipe left right (some p1) (some p2)
      = [PEv.spawn p1 (parse_input left).head? (parse_input left) false,
         PEv.spawn p2 (parse_input right).head? (parse_input right) false,
         PEv.closeReadEnd, PEv.closeWriteEnd,
         PEv.waitChild p1, PEv.waitChild p2] := rfl
  have hspawn : ∀ (i : Nat) (e : PEv),
      (handle_pipe left right (some p1) (some p2)).get? i = some e →
      isSpawn e = true → i < 2 := by
    intro i e hi hs
    rw [ht] at hi
    rcases i with _ | _ | _ | _ | _ | _ | i <;>
      simp only [List.get?_cons_zero, List.get?_cons_succ, List.get?_nil,
        Option.some.injEq, reduceCtorEq] at hi <;>
      (try subst hi) <;>
      first
        | omega
        | simp [isSpawn] at hs
  have hclose : ∀ (i : Nat) (e : PEv),
      (handle_pipe left right (some p1) (some p2)).get? i = some e →
      isCloseFd e = true → 2 ≤ i ∧ i < 4 := by
    intro i e hi hs
    rw [ht] at hi
    rcases i with _ | _ | _ | _ | _ | _ | i <;>
      simp only [List.get?_cons_zero, List.get?_cons_succ, List.get?_nil,
        Option.some.injEq, reduceCtorEq] at hi <;>
      (try subst hi) <;>
      first
        | omega
        | simp [isCloseFd] at hs
  have hwait : ∀ (i : Nat) (e : PEv),
      (handle_pipe left right (some p1) (some p2)).get? i = some e →
      isWait e = true → 4 ≤ i := by
    intro i e hi hs
    rw [ht] at hi
    rcases i with _ | _ | _ | _ | _ | _ | i <;>
      simp only [List.get?_cons_zero, List.get?_cons_succ, List.get?_nil,
        Option.some.injEq, reduceCtorEq] at hi <;>
      (try subst hi) <;>
      first
        | omega
        | simp [isWait] at hs
  refine ⟨?_, ?_, ?_, ?_⟩
  · intro i j ei ej hi hj hsi hsj
    have h1 := hspawn i ei hi hsi
    have h2 := hclose j ej hj hsj
    omega
  · intro i j ei ej hi hj hsi hsj
    have h1 := hclose i ei hi hsi
    have h2 := hwait j ej hj hsj
    omega
  · rw [ht]; simp
  · rw [ht]; simp

/-- Witness for C4 at concrete inputs: the first spawn (index 0) precedes
the first descriptor close (index 2) in the pipe executor's trace. -/
theorem C4_pipe_order_witness : (0 : Nat) < 2 :=
  (C4_pipe_order "ls" "wc" 1 2).1 0 2
    (PEv.spawn 1 (some "ls") ["ls"] false) PEv.closeReadEnd
    (by decide) (by decide) (by decide) (by decide)

/-- C5 (counterexample to the claim as stated): in the pipe executor a
failed fork for the left child is not reported, and the operation is not
aborted - the orchestrator still closes the descriptors and waits. -/
theorem C5_counterexample :
    (handle_pipe "ls" "wc" none (some 3)).count PEv.reportForkFail = 0
      ∧ PEv.closeReadEnd ∈ handle_pipe "ls" "wc" none (some 3)
      ∧ PEv.waitChild 3 ∈ handle_pipe "ls" "wc" none (some 3) := by
  decide

/-- C5 (amended): only the plain/background launcher reports a failed
fork and aborts; the pipe executor and the conditional executor do not
check the fork result - no child is created for the failed fork, nothing
is reported, and the parent proceeds to close descriptors and wait, the
waitpid on the failed pid degenerating to a wait on any child. -/
theorem C5_fork_failure (args : List String) (bg : Bool) (left right : String)
    (p : Nat) (st : ExitStatus) :
    execute_command args bg none = [PEv.reportForkFail]
    ∧ handle_pipe left right none (some p)
        = [PEv.spawn p (parse_input right).head? (parse_input right) false,
           PEv.closeReadEnd, PEv.closeWriteEnd, PEv.waitAny, PEv.waitChild p]
    ∧ handle_pipe left right (some p) none
        = [PEv.spawn p (parse_input left).head? (parse_input left) false,
           PEv.closeReadEnd, PEv.closeWriteEnd, PEv.waitChild p, PEv.waitAny]
    ∧ handle_pipe left right none none
        = [PEv.closeReadEnd, PEv.closeWriteEnd, PEv.waitAny, PEv.waitAny]
    ∧ (handle_and left right none st (some p)).count PEv.reportForkFail = 0
    ∧ (handle_and left right none st (some p)).head? = some PEv.waitAny := by
  refine ⟨rfl, rfl, rfl, rfl, ?_, ?_⟩
  · by_cases h : st = ExitStatus.exited 0 <;>
      simp [handle_and, execute_command, waitEv, h, List.count_cons]
  · by_cases h : st = ExitStatus.exited 0 <;>
      simp [handle_and, execute_command, waitEv, h]

/-- C7: a background launch spawns the child, prints exactly the single
line `[BG] Process ID: <pid>` with the child's pid, and performs no wait
- control returns to the loop immediately and no handle is retained. -/
theorem C7_background (args : List String) (p : Nat) :
    execute_command args true (some p)
        = [PEv.spawn p args.head? args true, PEv.printBGLine p]
    ∧ (execute_command args true (some p)).flatMap pevOutput
        = ["[BG] Process ID: " ++ toString p]
    ∧ (execute_command args true (some p)).countP isWait = 0 := by
  refine ⟨rfl, ?_, ?_⟩
  · simp [execute_command, pevOutput]
  · simp [execute_command, List.countP_cons, isWait]

/-- The bounded parse loop keeps exactly the first `MAX_ARGS - 1 - i`
tokens of the stream. -/
theorem parseGo_eq_take (ts : List String) : ∀ i : Nat,
    parseGo i ts = ts.take (MAX_ARGS - 1 - i) := by
  induction ts with
  | nil => intro i; simp [parseGo]
  | cons t ts ih =>
    intro i
    by_cases h : i < MAX_ARGS - 1
    · have h9 : MAX_ARGS - 1 - i = (MAX_ARGS - 1 - (i + 1)) + 1 := by omega
      rw [parseGo, if_pos h, ih (i + 1), h9, List.take_succ_cons]
    · have h0 : MAX_ARGS - 1 - i = 0 := by omega
      rw [parseGo, if_neg h, h0, List.take_zero]

/-- `parse_input` produces exactly the first `MAX_ARGS - 1` strtok tokens:
the excess is dropped, nothing else changes. -/
theorem parse_input_eq_take (line : String) :
    parse_input line = (strtokAll line.data).take (MAX_ARGS - 1) :=
  parseGo_eq_take (strtokAll line.data) 0

/-- Composing two head modifications. -/
theorem modifyHead_comp (f g : List Char → List Char) (l : List (List Char)) :
    (l.modifyHead f).modifyHead g = l.modifyHead (fun w => g (f w)) := by
  cases l <;> simp

/-- Prepending nothing to the head piece changes nothing. -/
theorem modifyHead_nil_append (l : List (List Char)) :
    l.modifyHead (fun w => [] ++ w) = l := by
  cases l <;> simp

/-- Modifying the head with the identity changes nothing. -/
theorem modifyHead_id (l : List (List Char)) :
    l.modifyHead (fun w => w) = l := by
  cases l <;> simp

/-- The strtok accumulator loop, described through the declarative
splitter: the tokens are the nonempty pieces (with the pending
accumulator prepended to the first piece). -/
theorem tokAux_eq_splitCh (cs : List Char) : ∀ cur : List Char,
    tokAux cur cs
      = (((splitCh cs).modifyHead (fun w => cur.reverse ++ w)).filter
          (fun w => !w.isEmpty)).map (fun w => String.mk w) := by
  induction cs with
  | nil =>
    intro cur
    by_cases hc : cur = []
    · simp [tokAux, splitCh, hc]
    · simp [tokAux, splitCh, hc]
  | cons c cs ih =>
    intro cur
    by_cases hd : isDelim c
    · by_cases hc : cur = []
      · simp [tokAux, splitCh, hd, hc, ih [], modifyHead_id]
      · simp [tokAux, splitCh, hd, hc, ih [], modifyHead_id]
    · rw [tokAux, if_neg hd, ih (c :: cur)]
      have hs : splitCh (c :: cs) = (splitCh cs).modifyHead (fun w => c :: w) := by
        rw [splitCh, if_neg hd]
      rw [hs, modifyHead_comp]
      have harr : (fun w => (c :: cur).reverse ++ w)
          = (fun w : List Char => cur.reverse ++ ((fun w => c :: w) w)) := by
        funext w
        simp
      rw [harr]

/-- The full strtok token stream equals the nonempty pieces of the
declarative whitespace split. -/
theorem strtokAll_eq_splitCh (cs : List Char) :
    strtokAll cs
      = ((splitCh cs).filter (fun w => !w.isEmpty)).map (fun w => String.mk w) := by
  have h := tokAux_eq_splitCh cs []
  simpa [strtokAll, modifyHead_id] using h

/-- A line made only of delimiters yields no tokens at all. -/
theorem strtokAll_all_delim (cs : List Char) (h : ∀ c ∈ cs, isDelim c = true) :
    strtokAll cs = [] := by
  induction cs with
  | nil => rfl
  | cons c cs ih =>
    have hc : isDelim c = true := h c (by simp)
    have ih2 : strtokAll cs = [] := ih (fun x hx => h x (by simp [hx]))
    have hstep : strtokAll (c :: cs) = strtokAll cs := by
      simp [strtokAll, tokAux, hc]
    rw [hstep, ih2]

/-- C6: the tokenizer produces at most `MAX_ARGS - 1` tokens (the excess
beyond the bound is dropped, nothing else changes), the token stream is
exactly the list of nonempty pieces of splitting on space, tab and
newline, an empty or all-whitespace line yields zero tokens, and the
produced argument array carries the NULL sentinel right after the
tokens. -/
theorem C6_tokenizer (line : String) :
    (parse_input line).length ≤ MAX_ARGS - 1
    ∧ parse_input line = (strtokAll line.data).take (MAX_ARGS - 1)
    ∧ strtokAll line.data
        = ((splitCh line.data).filter (fun w => !w.isEmpty)).map (fun w => String.mk w)
    ∧ ((∀ c ∈ line.data, isDelim c = true) → parse_input line = [])
    ∧ (argsArrayOf line).get? (parse_input line).length = some none := by
  refine ⟨?_, parse_input_eq_take line, strtokAll_eq_splitCh line.data, ?_, ?_⟩
  · rw [parse_input_eq_take]
    simp [List.length_take]
  · intro h
    rw [parse_input_eq_take, strtokAll_all_delim line.data h]
    rfl
  · have h := List.getElem?_concat_length ((parse_input line).map some) (none : Option String)
    rw [argsArrayOf, List.get?_eq_getElem?]
    rw [show ((parse_input line).map some).length = (parse_input line).length from
      List.length_map _ _] at h
    exact h

/-- Witness for C6 at a concrete input: an all-whitespace line yields
zero tokens. -/
theorem C6_tokenizer_witness : parse_input (String.mk [' ', '\t']) = [] :=
  (C6_tokenizer (String.mk [' ', '\t'])).2.2.2.1 (by decide)

/-- A `&&` occurrence at index 0 of a cons cell, characterized. -/
theorem matchAnd_zero (a : Char) (as : List Char) :
    matchAnd (a :: as) 0 ↔ a = '&' ∧ as.head? = some '&' := by
  cases as with
  | nil => simp [matchAnd]
  | cons b bs => simp [matchAnd]

/-- A `&&` occurrence at a successor index skips the head. -/
theorem matchAnd_succ (a : Char) (as : List Char) (i : Nat) :
    matchAnd (a :: as) (i + 1) ↔ matchAnd as i := Iff.rfl

/-- Indices at or beyond the end carry no `&&` occurrence. -/
theorem not_matchAnd_of_le (cs : List Char) (i : Nat) (h : cs.length ≤ i) :
    ¬ matchAnd cs i := by
  intro hm
  unfold matchAnd at hm
  rw [List.drop_eq_nil_of_le h] at hm
  simp at hm

/-- The bounded no-`&&` predicate covers all indices. -/
theorem noAnd_iff (cs : List Char) : noAnd cs ↔ ∀ i, ¬ matchAnd cs i := by
  constructor
  · intro h i
    by_cases hi : i < cs.length
    · exact h i hi
    · exact not_matchAnd_of_le cs i (Nat.le_of_not_lt hi)
  · intro h i _
    exact h i

/-- `strstr2` returns `none` exactly when the line has no `&&`. -/
theorem strstr2_none_iff (cs : List Char) :
    strstr2 cs = none ↔ ∀ i, ¬ matchAnd cs i := by
  induction cs with
  | nil => simp [strstr2, matchAnd]
  | cons a as ih =>
    by_cases h : a = '&' ∧ as.head? = some '&'
    · constructor
      · intro h'
        rw [strstr2, if_pos h] at h'
        exact absurd h' (by simp)
      · intro hall
        exact absurd ((matchAnd_zero a as).mpr h) (hall 0)
    · rw [strstr2, if_neg h]
      constructor
      · intro h' i
        have hnone : strstr2 as = none := by
          cases hs : strstr2 as with
          | none => rfl
          | some k => rw [hs] at h'; exact absurd h' (by simp)
        have hall := ih.mp hnone
        cases i with
        | zero => exact fun hm => h ((matchAnd_zero a as).mp hm)
        | succ n => exact fun hm => hall n ((matchAnd_succ a as n).mp hm)
      · intro hall
        have hnone : strstr2 as = none :=
          ih.mpr (fun i hm => hall (i + 1) ((matchAnd_succ a as i).mpr hm))
        rw [hnone]
        rfl

/-- `strstr2` returns `some i` exactly when `i` is the first `&&` index. -/
theorem strstr2_some_iff (cs : List Char) : ∀ i : Nat,
    strstr2 cs = some i ↔ firstAndAt cs i := by
  induction cs with
  | nil =>
    intro i
    simp [strstr2, firstAndAt, matchAnd]
  | cons a as ih =>
    intro i
    by_cases h : a = '&' ∧ as.head? = some '&'
    · rw [strstr2, if_pos h]
      constructor
      · intro h'
        have hi : i = 0 := by
          injection h' with h''
          omega
        subst hi
        exact ⟨(matchAnd_zero a as).mpr h, fun j hj => absurd hj (Nat.not_lt_zero j)⟩
      · rintro ⟨hm, hf⟩
        cases i with
        | zero => rfl
        | succ n => exact absurd ((matchAnd_zero a as).mpr h) (hf 0 (Nat.succ_pos n))
    · rw [strstr2, if_neg h]
      cases i with
      | zero =>
        constructor
        · intro h'
          cases hs : strstr2 as with
          | none => rw [hs] at h'; exact absurd h' (by simp)
          | some k => rw [hs] at h'; simp at h'
        · rintro ⟨hm, _⟩
          exact absurd ((matchAnd_zero a as).mp hm) h
      | succ n =>
        constructor
        · intro h'
          have hs : strstr2 as = some n := by
            cases hs : strstr2 as with
            | none => rw [hs] at h'; exact absurd h' (by simp)
            | some k =>
              rw [hs] at h'
              have hk : k = n := by
                have h2 := h'
                simp only [Option.map_some', Option.some.injEq] at h2
                omega
              exact congrArg some hk
          have hf := (ih n).mp hs
          refine ⟨(matchAnd_succ a as n).mpr hf.1, ?_⟩
          intro j hj
          cases j with
          | zero => exact fun hm => h ((matchAnd_zero a as).mp hm)
          | succ m => exact fun hm => hf.2 m (by omega) ((matchAnd_succ a as m).mp hm)
        · rintro ⟨hm, hf⟩
          have hfa : firstAndAt as n :=
            ⟨(matchAnd_succ a as n).mp hm,
             fun j hj hmj => hf (j + 1) (by omega) ((matchAnd_succ a as j).mpr hmj)⟩
          rw [(ih n).mpr hfa]
          rfl

/-- `strchrIdx` returns `none` exactly when the character is absent. -/
theorem strchrIdx_none_iff (c : Char) (cs : List Char) :
    strchrIdx c cs = none ↔ c ∉ cs := by
  induction cs with
  | nil => simp [strchrIdx]
  | cons a as ih =>
    by_cases h : a = c
    · rw [strchrIdx, if_pos h]
      simp [h]
    · rw [strchrIdx, if_neg h]
      constructor
      · intro h' hc
        have hnone : strchrIdx c as = none := by
          cases hs : strchrIdx c as with
          | none => rfl
          | some k => rw [hs] at h'; exact absurd h' (by simp)
        rcases List.mem_cons.mp hc with hac | hmem
        · exact h hac.symm
        · exact ih.mp hnone hmem
      · intro hc
        have hna : c ∉ as := fun hm => hc (List.mem_cons.mpr (Or.inr hm))
        rw [ih.mpr hna]
        rfl

/-- `strchrIdx` returns `some i` exactly when `i` is the first index of
the character. -/
theorem strchrIdx_some_iff (c : Char) (cs : List Char) : ∀ i : Nat,
    strchrIdx c cs = some i ↔ firstChrAt cs c i := by
  induction cs with
  | nil =>
    intro i
    simp [strchrIdx, firstChrAt]
  | cons a as ih =>
    intro i
    by_cases h : a = c
    · rw [strchrIdx, if_pos h]
      constructor
      · intro h'
        have hi : i = 0 := by
          injection h' with h''
          omega
        subst hi
        exact ⟨by simp [h], fun j hj => absurd hj (Nat.not_lt_zero j)⟩
      · rintro ⟨hm, hf⟩
        cases i with
        | zero => rfl
        | succ n =>
          exact absurd (by simp [h] : (a :: as)[0]? = some c) (hf 0 (Nat.succ_pos n))
    · rw [strchrIdx, if_neg h]
      cases i with
      | zero =>
        constructor
        · intro h'
          cases hs : strchrIdx c as with
          | none => rw [hs] at h'; exact absurd h' (by simp)
          | some k => rw [hs] at h'; simp at h'
        · rintro ⟨hm, _⟩
          simp only [List.getElem?_cons_zero, Option.some.injEq] at hm
          exact absurd hm h
      | succ n =>
        constructor
        · intro h'
          have hs : strchrIdx c as = some n := by
            cases hs : strchrIdx c as with
            | none => rw [hs] at h'; exact absurd h' (by simp)
            | some k =>
              rw [hs] at h'
              have hk : k = n := by
                have h2 := h'
                simp only [Option.map_some', Option.some.injEq] at h2
                omega
              exact congrArg some hk
          have hf := (ih n).mp hs
          refine ⟨by simpa using hf.1, ?_⟩
          intro j hj
          cases j with
          | zero =>
            intro hm
            simp only [List.getElem?_cons_zero, Option.some.injEq] at hm
            exact h hm
          | succ m =>
            intro hm
            exact hf.2 m (by omega) (by simpa using hm)
        · rintro ⟨hm, hf⟩
          have hfa : firstChrAt as c n := by
            refine ⟨by simpa using hm, ?_⟩
            intro j hj hmj
            exact hf (j + 1) (by omega) (by simpa using hmj)
          rw [(ih n).mpr hfa]
          rfl

/-- Presence of a character, through `strchrIdx`. -/
theorem strchrIdx_isSome_iff (c : Char) (cs : List Char) :
    (strchrIdx c cs).isSome = true ↔ c ∈ cs := by
  rw [Option.isSome_iff_ne_none]
  constructor
  · intro h
    by_contra hc
    exact h ((strchrIdx_none_iff c cs).mpr hc)
  · intro h hn
    exact absurd h (fun hmem => ((strchrIdx_none_iff c cs).mp hn) hmem)

/-- A `&&` occurrence, characterized positionally. -/
theorem matchAnd_iff_getElem (cs : List Char) (i : Nat) :
    matchAnd cs i ↔ cs[i]? = some '&' ∧ cs[i + 1]? = some '&' := by
  have g0 : cs[i]? = (cs.drop i)[0]? := by simp [List.getElem?_drop]
  have g1 : cs[i + 1]? = (cs.drop i)[1]? := by simp [List.getElem?_drop]
  rw [g0, g1]
  unfold matchAnd
  cases hdrop : cs.drop i with
  | nil => simp
  | cons x xs =>
    cases xs with
    | nil => simp
    | cons y ys => simp [List.take_succ_cons]

/-- `strcspn`-style truncation is the identity on an ampersand-free
line. -/
theorem takeWhile_no_amp (cs : List Char) (h : '&' ∉ cs) :
    cs.takeWhile (fun c => c ≠ '&') = cs := by
  induction cs with
  | nil => rfl
  | cons a as ih =>
    have ha : a ≠ '&' := fun hc => h (hc ▸ List.mem_cons_self a as)
    have hna : '&' ∉ as := fun hm => h (List.mem_cons.mpr (Or.inr hm))
    have hrec := ih hna
    simp [List.takeWhile_cons, ha]
    simpa using hrec

/-- Truncating exactly at a terminal ampersand recovers the prefix. -/
theorem takeWhile_append_amp (pre : List Char) (h : ∀ c ∈ pre, c ≠ '&') :
    (pre ++ ['&']).takeWhile (fun c => c ≠ '&') = pre := by
  induction pre with
  | nil => simp [List.takeWhile_cons]
  | cons a as ih =>
    have ha : a ≠ '&' := h a (List.mem_cons_self a as)
    have hh : ∀ c ∈ as, c ≠ '&' := fun c hc => h c (List.mem_cons.mpr (Or.inr hc))
    have hrec := ih hh
    simp [List.takeWhile_cons, ha]
    simpa using hrec

/-- Dispatch on a line with a first `&&` occurrence: the conditional
executor, on the split at that occurrence. -/
theorem dispatch_eq_runAnd (line : String) (i : Nat) (h : firstAndAt line.data i) :
    dispatch line
      = SAction.runAnd (String.mk (line.data.take i)) (String.mk (line.data.drop (i + 2))) := by
  have hs : strstr2 line.data = some i := (strstr2_some_iff line.data i).mpr h
  simp [dispatch, hs]

/-- Dispatch on a `&&`-free line with a first `|` occurrence: the pipe
executor, on the split at that occurrence. -/
theorem dispatch_eq_runPipe (line : String) (i : Nat) (hna : noAnd line.data)
    (h : firstChrAt line.data '|' i) :
    dispatch line
      = SAction.runPipe (String.mk (line.data.take i)) (String.mk (line.data.drop (i + 1))) := by
  have h1 : strstr2 line.data = none :=
    (strstr2_none_iff line.data).mpr ((noAnd_iff line.data).mp hna)
  have h2 : strchrIdx '|' line.data = some i := (strchrIdx_some_iff '|' line.data i).mpr h
  simp [dispatch, h1, h2]

/-- Dispatch on an operator-free line: truncate at the first ampersand
(a no-op when there is none), tokenize, and route with the background
flag set exactly when an ampersand is present. -/
theorem dispatch_eq_route (line : String) (hna : noAnd line.data) (hp : '|' ∉ line.data) :
    dispatch line
      = route (parse_input (String.mk (line.data.takeWhile (fun c => c ≠ '&'))))
          (decide ('&' ∈ line.data)) := by
  have h1 : strstr2 line.data = none :=
    (strstr2_none_iff line.data).mpr ((noAnd_iff line.data).mp hna)
  have h2 : strchrIdx '|' line.data = none := (strchrIdx_none_iff '|' line.data).mpr hp
  by_cases hamp : '&' ∈ line.data
  · have h3 : (strchrIdx '&' line.data).isSome = true :=
      (strchrIdx_isSome_iff '&' line.data).mpr hamp
    simp [dispatch, h1, h2, h3, hamp]
  · have h3 : (strchrIdx '&' line.data).isSome = false := by
      rw [(strchrIdx_none_iff '&' line.data).mpr hamp]
      rfl
    rw [takeWhile_no_amp line.data hamp]
    simp [dispatch, h1, h2, h3, hamp]

/-- Unfolding the string constructor's character list. -/
theorem data_mk (cs : List Char) : (String.mk cs).data = cs := rfl

/-- C3 (amended): the dispatcher's fixed first-match precedence - a `&&`
line is split at the first occurrence for the conditional executor; else
a `|` line is split at the first occurrence for the pipe executor; else
the line is truncated at its first ampersand (a no-op without one),
tokenized and routed with the background flag set exactly when an
ampersand is present - where routing skips an empty token list, sends a
built-in first token to the built-in, and otherwise launches with the
flag. -/
theorem C3_dispatch (line : String) :
    (∀ i : Nat, firstAndAt line.data i →
        dispatch line = SAction.runAnd (String.mk (line.data.take i))
          (String.mk (line.data.drop (i + 2))))
    ∧ (noAnd line.data → ∀ i : Nat, firstChrAt line.data '|' i →
        dispatch line = SAction.runPipe (String.mk (line.data.take i))
          (String.mk (line.data.drop (i + 1))))
    ∧ (noAnd line.data → '|' ∉ line.data →
        dispatch line
          = route (parse_input (String.mk (line.data.takeWhile (fun c => c ≠ '&'))))
              (decide ('&' ∈ line.data)))
    ∧ (∀ bg : Bool, route [] bg = SAction.skip)
    ∧ (∀ (a0 : String) (rest : List String) (bg : Bool),
        route (a0 :: rest) bg = SAction.launch (a0 :: rest) bg
          ↔ (a0 ≠ "cd" ∧ a0 ≠ "pwd" ∧ a0 ≠ "exit" ∧ a0 ≠ "history")) := by
  refine ⟨fun i h => dispatch_eq_runAnd line i h,
          fun hna i h => dispatch_eq_runPipe line i hna h,
          fun hna hp => dispatch_eq_route line hna hp,
          fun bg => rfl, ?_⟩
  intro a0 rest bg
  by_cases h1 : a0 = "cd"
  · simp [route, h1]
  · by_cases h2 : a0 = "pwd"
    · simp [route, h1, h2]
    · by_cases h3 : a0 = "exit"
      · simp [route, h1, h2, h3]
      · by_cases h4 : a0 = "history"
        · simp [route, h1, h2, h3, h4]
        · simp [route, h1, h2, h3, h4]

/-- Counterexample to C3 as stated: `history &` contains an ampersand but
is routed to the history built-in, not launched in non-waiting mode, and
an all-whitespace line is skipped, not launched in waiting mode. -/
theorem C3_counterexample :
    dispatch "history &" = SAction.builtinHistory
    ∧ actionSpawns (dispatch "history &") = false
    ∧ dispatch " " = SAction.skip
    ∧ actionSpawns (dispatch " ") = false := by
  decide

/-- Witness for C3 at a concrete input: `a && b` is split at the first
`&&` and routed to the conditional executor. -/
theorem C3_dispatch_witness : dispatch "a && b" = SAction.runAnd "a " " b" :=
  ((C3_dispatch "a && b").1 2 (by decide)).trans (by decide)

/-- C9 (amended): on a line with no `&&` and no `|` but at least one `&`
anywhere - mid-word included - the dispatcher sets background mode and
truncates the line at its first `&`: everything after the first `&` is
discarded (dispatching the line is the same as dispatching the
truncated prefix with a single trailing `&`), and the prefix's tokens
are launched in background mode unless they are empty or start with a
built-in name. -/
theorem C9_bg_truncation (line : String) (h1 : noAnd line.data)
    (h2 : '|' ∉ line.data) (h3 : '&' ∈ line.data) :
    dispatch line
      = route (parse_input (String.mk (line.data.takeWhile (fun c => c ≠ '&')))) true
    ∧ dispatch line
      = dispatch (String.mk (line.data.takeWhile (fun c => c ≠ '&') ++ ['&']))
    ∧ (∀ (a0 : String) (rest : List String),
        parse_input (String.mk (line.data.takeWhile (fun c => c ≠ '&'))) = a0 :: rest →
        a0 ≠ "cd" → a0 ≠ "pwd" → a0 ≠ "exit" → a0 ≠ "history" →
        dispatch line = SAction.launch (a0 :: rest) true) := by
  have hfirst : dispatch line
      = route (parse_input (String.mk (line.data.takeWhile (fun c => c ≠ '&')))) true := by
    rw [dispatch_eq_route line h1 h2]
    congr 1
    simp [h3]
  have hpre : ∀ c ∈ line.data.takeWhile (fun c => c ≠ '&'), c ≠ '&' := by
    intro c hc
    simpa using List.mem_takeWhile_imp hc
  refine ⟨hfirst, ?_, ?_⟩
  · have hNA : noAnd (line.data.takeWhile (fun c => c ≠ '&') ++ ['&']) := by
      intro i hi hm
      rw [matchAnd_iff_getElem] at hm
      obtain ⟨hm1, hm2⟩ := hm
      by_cases hip : i < (line.data.takeWhile (fun c => c ≠ '&')).length
      · rw [List.getElem?_append_left hip] at hm1
        exact hpre '&' (List.getElem?_mem hm1) rfl
      · have hlen : (line.data.takeWhile (fun c => c ≠ '&') ++ ['&']).length ≤ i + 1 := by
          simp only [List.length_append, List.length_cons, List.length_nil]
          omega
        rw [List.getElem?_eq_none hlen] at hm2
        exact Option.noConfusion hm2
    have hP : '|' ∉ line.data.takeWhile (fun c => c ≠ '&') ++ ['&'] := by
      intro hm
      rcases List.mem_append.mp hm with hm | hm
      · exact h2 (List.takeWhile_subset _ hm)
      · simp at hm
    have hd2 := dispatch_eq_route
      (String.mk (line.data.takeWhile (fun c => c ≠ '&') ++ ['&'])) hNA hP
    rw [hfirst, hd2]
    simp only [data_mk]
    rw [takeWhile_append_amp _ hpre]
    congr 1
    simp
  · intro a0 rest hargs n1 n2 n3 n4
    rw [hfirst, hargs]
    simp [route, n1, n2, n3, n4]

/-- Counterexample to C9 as stated: `&x` and `cd&b` contain an ampersand
(and no `&&`, no `|`), yet the truncated prefix is not launched in the
background - the first is skipped (empty prefix), the second runs the
`cd` built-in. -/
theorem C9_counterexample :
    ('&' ∈ "&x".data ∧ noAnd "&x".data ∧ '|' ∉ "&x".data
      ∧ dispatch "&x" = SAction.skip
      ∧ actionSpawns (dispatch "&x") = false)
    ∧ ('&' ∈ "cd&b".data ∧ noAnd "cd&b".data ∧ '|' ∉ "cd&b".data
      ∧ dispatch "cd&b" = SAction.builtinCd ["cd"]
      ∧ actionSpawns (dispatch "cd&b") = false) := by
  decide

/-- Witness for C9 at a concrete input: `echo a&b` is truncated at the
`&` and its prefix's tokens are launched in background mode. -/
theorem C9_bg_truncation_witness :
    dispatch "echo a&b" = SAction.launch ["echo", "a"] true :=
  (C9_bg_truncation "echo a&b" (by decide) (by decide) (by decide)).2.2
    "echo" ["a"] (by decide) (by decide) (by decide) (by decide) (by decide)

/-- C10: on an operator-free line, the built-in check takes precedence
over background mode - if the first token after ampersand truncation is
a built-in name, the dispatcher routes to that built-in (or ends the
loop, for exit) and never to a process-spawning executor, whatever the
background flag: no child is spawned and no `[BG]` line can be
printed. -/
theorem C10_builtin_over_bg (line : String) (a0 : String) (rest : List String)
    (h1 : noAnd line.data) (h2 : '|' ∉ line.data)
    (hargs : parse_input (String.mk (line.data.takeWhile (fun c => c ≠ '&'))) = a0 :: rest)
    (hb : a0 = "cd" ∨ a0 = "pwd" ∨ a0 = "exit" ∨ a0 = "history") :
    dispatch line
      = (if a0 = "cd" then SAction.builtinCd (a0 :: rest)
         else if a0 = "pwd" then SAction.builtinPwd
         else if a0 = "exit" then SAction.exitLoop
         else SAction.builtinHistory)
    ∧ actionSpawns (dispatch line) = false := by
  rw [dispatch_eq_route line h1 h2, hargs]
  rcases hb with h | h | h | h <;> subst h <;>
    constructor <;> simp [route, actionSpawns]

/-- Witness for C10 at a concrete input: `history &` runs the history
built-in in the calling process; the background flag is ignored and
nothing is spawned. -/
theorem C10_builtin_over_bg_witness :
    dispatch "history &" = SAction.builtinHistory
      ∧ actionSpawns (dispatch "history &") = false := by
  have h := C10_builtin_over_bg "history &" "history" [] (by decide) (by decide)
    (by decide) (Or.inr (Or.inr (Or.inr rfl)))
  simpa using h

/-- Recording a concatenation records the pieces in order. -/
theorem foldAdd_append (st : HistState) (l1 l2 : List String) :
    foldAdd st (l1 ++ l2) = foldAdd (foldAdd st l1) l2 := by
  simp [foldAdd, List.foldl_append]

/-- Recording commands never changes the number of slots. -/
theorem foldAdd_slots_length (cmds : List String) : ∀ st : HistState,
    (foldAdd st cmds).slots.length = st.slots.length := by
  induction cmds with
  | nil => intro st; rfl
  | cons c cs ih =>
    intro st
    rw [show foldAdd st (c :: cs) = foldAdd (add_to_history c st) cs from rfl]
    rw [ih (add_to_history c st)]
    simp [add_to_history]

/-- Recording commands keeps the index inside the window. -/
theorem foldAdd_idx_lt (cmds : List String) : ∀ st : HistState,
    st.idx < HISTORY_COUNT → (foldAdd st cmds).idx < HISTORY_COUNT := by
  induction cmds with
  | nil => intro st h; exact h
  | cons c cs ih =>
    intro st _
    rw [show foldAdd st (c :: cs) = foldAdd (add_to_history c st) cs from rfl]
    exact ih (add_to_history c st) (Nat.mod_lt _ (by decide))

/-- A list of length ten is a literal ten-element list. -/
theorem exists_len_ten {α : Type} (l : List α) (h : l.length = 10) :
    ∃ a0 a1 a2 a3 a4 a5 a6 a7 a8 a9 : α,
      l = [a0, a1, a2, a3, a4, a5, a6, a7, a8, a9] := by
  rcases l with _|⟨a0,_|⟨a1,_|⟨a2,_|⟨a3,_|⟨a4,_|⟨a5,_|⟨a6,_|⟨a7,_|⟨a8,_|⟨a9,rest⟩⟩⟩⟩⟩⟩⟩⟩⟩⟩ <;>
    simp only [List.length_nil, List.length_cons] at h <;>
    first
      | omega
      | (have hr : rest = [] := List.length_eq_zero.mp (by omega)
         subst hr
         exact ⟨a0, a1, a2, a3, a4, a5, a6, a7, a8, a9, rfl⟩)

set_option maxHeartbeats 1000000 in
/-- Recording a full window of `HISTORY_COUNT` commands into any valid
state overwrites every slot, and retrieval then lists exactly that
window, oldest first, numbered from one. -/
theorem foldAdd_full (st : HistState) (ds : List String)
    (hidx : st.idx < HISTORY_COUNT) (hlen : st.slots.length = HISTORY_COUNT)
    (hdlen : ds.length = HISTORY_COUNT) :
    show_history (foldAdd st ds) = ds.enumFrom 1 := by
  obtain ⟨slots, idx⟩ := st
  obtain ⟨s0, s1, s2, s3, s4, s5, s6, s7, s8, s9, rfl⟩ :=
    exists_len_ten slots (by simpa using hlen)
  obtain ⟨d0, d1, d2, d3, d4, d5, d6, d7, d8, d9, rfl⟩ := exists_len_ten ds hdlen
  have hidx2 : idx < 10 := by simpa using hidx
  interval_cases idx <;>
    simp [show_history, foldAdd, add_to_history, showGo, HISTORY_COUNT,
      List.getD, List.set]

/-- C8: retrieval lists the stored commands oldest first in entry order,
numbered from one; once the window of `HISTORY_COUNT` entries is full,
each new command overwrites the oldest entry, so only the most recent
window remains. -/
theorem C8_history (cmds : List String) :
    show_history (histAfter cmds)
      = (cmds.drop (cmds.length - HISTORY_COUNT)).enumFrom 1 := by
  by_cases hlen : cmds.length < HISTORY_COUNT
  · rcases cmds with _|⟨c0,_|⟨c1,_|⟨c2,_|⟨c3,_|⟨c4,_|⟨c5,_|⟨c6,_|⟨c7,_|⟨c8,_|⟨c9,rest⟩⟩⟩⟩⟩⟩⟩⟩⟩⟩
    · simp [show_history, histAfter, foldAdd, add_to_history, initHist, showGo,
        HISTORY_COUNT, List.getD, List.set, List.replicate]
    · simp [show_history, histAfter, foldAdd, add_to_history, initHist, showGo,
        HISTORY_COUNT, List.getD, List.set, List.replicate]
    · simp [show_history, histAfter, foldAdd, add_to_history, initHist, showGo,
        HISTORY_COUNT, List.getD, List.set, List.replicate]
    · simp [show_history, histAfter, foldAdd, add_to_history, initHist, showGo,
        HISTORY_COUNT, List.getD, List.set, List.replicate]
    · simp [show_history, histAfter, foldAdd, add_to_history, initHist, showGo,
        HISTORY_COUNT, List.getD, List.set, List.replicate]
    · simp [show_history, histAfter, foldAdd, add_to_history, initHist, showGo,
        HISTORY_COUNT, List.getD, List.set, List.replicate]
    · simp [show_history, histAfter, foldAdd, add_to_history, initHist, showGo,
        HISTORY_COUNT, List.getD, List.set, List.replicate]
    · simp [show_history, histAfter, foldAdd, add_to_history, initHist, showGo,
        HISTORY_COUNT, List.getD, List.set, List.replicate]
    · simp [show_history, histAfter, foldAdd, add_to_history, initHist, showGo,
        HISTORY_COUNT, List.getD, List.set, List.replicate]
    · simp [show_history, histAfter, foldAdd, add_to_history, initHist, showGo,
        HISTORY_COUNT, List.getD, List.set, List.replicate]
    · exfalso
      simp only [List.length_cons, HISTORY_COUNT] at hlen
      omega
  · have hst : histAfter cmds
        = foldAdd (histAfter (cmds.take (cmds.length - HISTORY_COUNT)))
            (cmds.drop (cmds.length - HISTORY_COUNT)) := by
      conv_lhs => rw [histAfter, ← List.take_append_drop (cmds.length - HISTORY_COUNT) cmds]
      rw [foldAdd_append]
      rfl
    have hslots : (histAfter (cmds.take (cmds.length - HISTORY_COUNT))).slots.length
        = HISTORY_COUNT := by
      rw [histAfter, foldAdd_slots_length]
      rfl
    have hidx : (histAfter (cmds.take (cmds.length - HISTORY_COUNT))).idx
        < HISTORY_COUNT := by
      rw [histAfter]
      exact foldAdd_idx_lt _ initHist (by decide)
    have hdlen : (cmds.drop (cmds.length - HISTORY_COUNT)).length = HISTORY_COUNT := by
      rw [List.length_drop]
      omega
    rw [hst]
    exact foldAdd_full _ _ hidx hslots hdlen
